import Mathlib

/-!
Verification development for the Dynatrace Kubernetes monitoring client
(files dynatrace_client.py, create_dashboard.py, get_deployment_metrics.py).
Numeric metric values are modelled as rationals.  A Python exception that
escapes a function is modelled by an Option result, with none standing for
the raised exception.  Network fetches are passed in as function parameters,
so every definition below is the pure data transformation performed by the
corresponding Python function on the fetched data.
-/

/-- Metric statistics pair with fields min and max, the shape returned by
the metric query helper of the client. -/
structure MetricStat where
  min : ℚ
  max : ℚ
deriving DecidableEq

/-- Python min of a list with default 0.0, as in the call min with a
default keyword argument. -/
def pyMinD (xs : List ℚ) : ℚ :=
  match xs with
  | [] => 0
  | x :: t => t.foldl Min.min x

/-- Python max of a list with default 0.0. -/
def pyMaxD (xs : List ℚ) : ℚ :=
  match xs with
  | [] => 0
  | x :: t => t.foldl Max.max x

/-- Python min of a list without a default value: it raises ValueError on
an empty sequence, modelled by none. -/
def pyMin (xs : List ℚ) : Option ℚ :=
  match xs with
  | [] => none
  | x :: t => some (t.foldl Min.min x)

/-- Python sum of a list of numbers, starting from 0. -/
def pySum (xs : List ℚ) : ℚ := xs.foldl (· + ·) 0

/-- needle matches at the head of hay. -/
def headMatch : List Char → List Char → Bool
  | [], _ => true
  | _ :: _, [] => false
  | c :: cs, d :: ds => c == d && headMatch cs ds

/-- Python substring containment test of needle in hay on character
lists. -/
def containsSeg (needle : List Char) : List Char → Bool
  | [] => needle.isEmpty
  | c :: t => headMatch needle (c :: t) || containsSeg needle t

/-- Python substring containment test for strings: the needle occurs
somewhere inside the hay. -/
def strContains (hay needle : String) : Bool :=
  containsSeg needle.toList hay.toList

/-- Python str.lower, modelled on the character list of the string. -/
def lowerStr (s : String) : List Char :=
  s.toList.map Char.toLower

/-- A tag of an entity; the value field models the Python expression that
reads the value key with the stringRepresentation key as fallback. -/
structure Tag where
  key : String
  value : String
deriving DecidableEq

/-- A monitored entity as returned by the entity search endpoint, with the
fields used by get_deployments. -/
structure Entity where
  entityId : String
  displayName : String
  tags : List Tag
  props : List (String × String)
deriving DecidableEq

/-- cluster_match flag of get_deployments: the cluster name appears
case-insensitively inside the value of some tag whose key contains the
word cluster. -/
def clusterMatch (cluster : String) (e : Entity) : Bool :=
  e.tags.any fun t =>
    containsSeg "cluster".toList (lowerStr t.key) &&
    containsSeg (lowerStr cluster) (lowerStr t.value)

/-- namespace_match contribution of the tag loop of get_deployments. -/
def nsTagMatch (ns : String) (e : Entity) : Bool :=
  e.tags.any fun t =>
    containsSeg "namespace".toList (lowerStr t.key) &&
    containsSeg (lowerStr ns) (lowerStr t.value)

/-- namespace_match contribution of the properties loop of
get_deployments. -/
def nsPropMatch (ns : String) (e : Entity) : Bool :=
  e.props.any fun p =>
    containsSeg "namespace".toList (lowerStr p.1) &&
    containsSeg (lowerStr ns) (lowerStr p.2)

/-- namespace_match flag of get_deployments: set by a namespace keyed tag
whose value contains the namespace, or by a namespace named property whose
value contains the namespace. -/
def namespaceMatch (ns : String) (e : Entity) : Bool :=
  nsTagMatch ns e || nsPropMatch ns e

/-- has_namespace_tag flag of get_deployments: the entity carries some tag
or property whose key contains the word namespace. -/
def hasNamespaceTag (e : Entity) : Bool :=
  (e.tags.any fun t => containsSeg "namespace".toList (lowerStr t.key)) ||
  (e.props.any fun p => containsSeg "namespace".toList (lowerStr p.1))

/-- Pure filtering core of get_deployments in dynatrace_client.py, acting
on the fetched entity list: matched_entities collects entities matching
cluster and namespace; when no entity in the whole set carries a namespace
tag or property and at least one entity matches the cluster, the cluster
only matches are returned instead. -/
def get_deployments (cluster ns : String) (entities : List Entity) : List Entity :=
  if !(entities.any hasNamespaceTag)
      && !(entities.filter fun e => clusterMatch cluster e).isEmpty then
    entities.filter fun e => clusterMatch cluster e
  else
    entities.filter fun e => clusterMatch cluster e && namespaceMatch ns e

/-- The test deciding whether a per-pod stat is appended to the
all_cpu_values respectively all_memory_values list in
get_workload_metrics: its min or its max is strictly positive. -/
def nonzeroStat (m : MetricStat) : Bool :=
  decide (0 < m.min) || decide (0 < m.max)

/-- Pod aggregation of get_workload_metrics in dynatrace_client.py.  The
input is the list of per-pod stats in pod order.  Stats failing
nonzeroStat are dropped; when nothing remains the aggregate is the zero
stat; otherwise the min is the Python min over the strictly positive mins
of the remaining stats, which raises ValueError (modelled by none) when
that sequence is empty, and the max is the sum of the remaining maxes. -/
def aggregatePods (stats : List MetricStat) : Option MetricStat :=
  match stats.filter nonzeroStat with
  | [] => some ⟨0, 0⟩
  | a :: rest =>
    match pyMin (((a :: rest).filter fun m => decide (0 < m.min)).map MetricStat.min) with
    | none => none
    | some mn => some ⟨mn, pySum ((a :: rest).map MetricStat.max)⟩

/-- The stat actually recorded for one pod by get_workload_metrics: the
fetch result of _get_metric_stats, which is the zero stat whenever the
HTTP request failed, because _get_metric_stats catches every exception and
returns the zero stat. -/
def effectiveStat (r : Option MetricStat) : MetricStat := r.getD ⟨0, 0⟩

/-- get_workload_metrics of dynatrace_client.py over the resolved pod
list.  cpuFetch and memFetch give the per-pod metric query outcome, none
standing for an HTTP failure which _get_metric_stats converts to the zero
stat.  Zero pods short-circuit to all-zero metrics with no heap entry.
Otherwise both aggregations run; a ValueError in either one propagates,
modelled by none.  The heap entry is present exactly when include_heap is
set, and pod_count is the length of the pod list. -/
def get_workload_metrics (pods : List String)
    (cpuFetch memFetch : String → Option MetricStat)
    (include_heap : Bool) (heapResult : MetricStat) :
    Option (MetricStat × MetricStat × Option MetricStat × Nat) :=
  match pods with
  | [] => some (⟨0, 0⟩, ⟨0, 0⟩, none, 0)
  | p :: ps =>
    match aggregatePods ((p :: ps).map fun q => effectiveStat (cpuFetch q)),
          aggregatePods ((p :: ps).map fun q => effectiveStat (memFetch q)) with
    | some c, some m =>
        some (c, m, if include_heap then some heapResult else none, (p :: ps).length)
    | _, _ => none

/-- One slot of the data array of a metric query result item, with its
values array of data points; a data point may be null. -/
structure SeriesEntry where
  values : List (Option ℚ)
deriving DecidableEq

/-- One item of the result array of a metric query response. -/
structure ResultItem where
  metricId : String
  data : List SeriesEntry
deriving DecidableEq

/-- Loop body of _get_metric_stats over the result items, updating the
accumulated pair of min_val and max_val.  Only the first data entry is
read; empty values are skipped; a metric id containing the min suffix
updates min_val with the Python min over the non-null data points with
default 0.0, and otherwise a metric id containing the max suffix updates
max_val likewise. -/
def metricStatsStep (acc : ℚ × ℚ) (item : ResultItem) : ℚ × ℚ :=
  match item.data with
  | [] => acc
  | d0 :: _ =>
    if d0.values.isEmpty then acc
    else if strContains item.metricId ":min" then
      (pyMinD (d0.values.filterMap id), acc.2)
    else if strContains item.metricId ":max" then
      (acc.1, pyMaxD (d0.values.filterMap id))
    else acc

/-- Pure response processing of _get_metric_stats in dynatrace_client.py.
The argument is none when the response has no result key; otherwise it is
the result array.  Both accumulators start at 0.0 and the items are
folded in order. -/
def get_metric_stats (response : Option (List ResultItem)) : MetricStat :=
  match response with
  | none => ⟨0, 0⟩
  | some items =>
    let r := items.foldl metricStatsStep (0, 0)
    ⟨r.1, r.2⟩

/-- Heap aggregation of _get_jvm_heap_metrics in dynatrace_client.py over
the resolved process group entities.  fetchPrimary is the per-entity fetch
of the primary heap metric key and fetchAlt the fetch of the alternate
key.  With no process groups the result is the zero stat.  Entities whose
stat fails nonzeroStat contribute nothing; when the primary key yields no
contribution at all, the alternate key is fetched for every entity
instead; when even that yields nothing the result is the zero stat, and
otherwise the result is the Python min of the collected mins paired with
the Python max of the collected maxes. -/
def get_jvm_heap_metrics (pgs : List String)
    (fetchPrimary fetchAlt : String → MetricStat) : MetricStat :=
  match pgs with
  | [] => ⟨0, 0⟩
  | g :: gs =>
    match ((g :: gs).map fetchPrimary).filter nonzeroStat with
    | [] =>
      match ((g :: gs).map fetchAlt).filter nonzeroStat with
      | [] => ⟨0, 0⟩
      | c :: cs =>
        ⟨pyMinD ((c :: cs).map MetricStat.min), pyMaxD ((c :: cs).map MetricStat.max)⟩
    | c :: cs =>
      ⟨pyMinD ((c :: cs).map MetricStat.min), pyMaxD ((c :: cs).map MetricStat.max)⟩

/-- A dashboard tile of create_dashboard.py, reduced to its name fields
and its bounds; the metric query payload of a tile does not take part in
the layout claims. -/
structure Tile where
  name : String
  customName : String
  top : Nat
  left : Nat
  width : Nat
  height : Nat
deriving DecidableEq

/-- Tile constructor of create_dashboard.py: bounds top is row times 304,
bounds left is column times 304, and the size is 304 by 304. -/
def mkTile (nm cn : String) (row col : Nat) : Tile :=
  ⟨nm, cn, row * 304, col * 304, 304, 304⟩

/-- Column and row stepping of create_dashboard.py: the column advances
and wraps from 3 back to 0, incrementing the row. -/
def stepPos (p : Nat × Nat) : Nat × Nat :=
  if p.2 + 1 ≥ 4 then (p.1 + 1, 0) else (p.1, p.2 + 1)

/-- Tile building loop of create_deployment_dashboard, threading the
current row and column position.  Every deployment contributes a CPU tile
and a memory tile, plus a JVM heap tile when heap tiles are enabled, with
the position stepped between consecutive tiles. -/
def buildTilesAux : Bool → List String → Nat × Nat → List Tile
  | _, [], _ => []
  | false, d :: rest, pos =>
    let p1 := stepPos pos
    mkTile (d ++ " - CPU") (d ++ " - CPU Usage") pos.1 pos.2 ::
    mkTile (d ++ " - Memory") (d ++ " - Memory Usage") p1.1 p1.2 ::
    buildTilesAux false rest (stepPos p1)
  | true, d :: rest, pos =>
    let p1 := stepPos pos
    let p2 := stepPos p1
    mkTile (d ++ " - CPU") (d ++ " - CPU Usage") pos.1 pos.2 ::
    mkTile (d ++ " - Memory") (d ++ " - Memory Usage") p1.1 p1.2 ::
    mkTile (d ++ " - JVM Heap") (d ++ " - JVM Heap Memory") p2.1 p2.2 ::
    buildTilesAux true rest (stepPos p2)

/-- Tile list of the dashboard payload built by
create_deployment_dashboard in create_dashboard.py, given the display
names of the resolved deployments.  With no deployments the function
returns early and no payload is built, modelled by none; otherwise the
tile loop starts at row 0, column 0. -/
def create_deployment_dashboard (deps : List String) (include_heap : Bool) :
    Option (List Tile) :=
  match deps with
  | [] => none
  | _ :: _ => some (buildTilesAux include_heap deps (0, 0))

/-- The bounds quadruple of a tile: top, left, width, height. -/
def tileBounds (t : Tile) : Nat × Nat × Nat × Nat :=
  (t.top, t.left, t.width, t.height)

/-- Grid position of the tile with flat index k when tiles are placed 4
per row at a 304 unit pitch. -/
def gridBounds (k : Nat) : Nat × Nat × Nat × Nat :=
  ((k / 4) * 304, (k % 4) * 304, 304, 304)

/-- The expected bounds sequence of n consecutive tiles starting at flat
index i. -/
def gridSeq : Nat → Nat → List (Nat × Nat × Nat × Nat)
  | _, 0 => []
  | i, n + 1 => gridBounds i :: gridSeq (i + 1) n

/-- A deployment entity as consumed by the metrics report pipeline in
get_deployment_metrics.py: displayName is none when the key is absent. -/
structure Deployment where
  displayName : Option String
  entityId : String
deriving DecidableEq

/-- Skip test of the deployment loop in get_deployment_metrics.py: a
deployment is skipped when its displayName key is present and differs
from the name engine. -/
def skipDeployment (d : Deployment) : Bool :=
  match d.displayName with
  | some n => !(n == "engine")
  | none => false

/-- Results building loop of get_deployment_metrics in
get_deployment_metrics.py: skipped deployments contribute nothing, every
other deployment contributes the metrics fetched for its entity id.  The
fetch stands for get_workload_metrics; the resulting list feeds every
output format unchanged. -/
def build_results (fetch : String → MetricStat × MetricStat × Option MetricStat × Nat) :
    List Deployment → List (Deployment × (MetricStat × MetricStat × Option MetricStat × Nat))
  | [] => []
  | d :: rest =>
    if skipDeployment d then build_results fetch rest
    else (d, fetch d.entityId) :: build_results fetch rest

example : aggregatePods [⟨0, 100⟩] = none := by decide
example : aggregatePods [⟨0, 100⟩, ⟨50, 200⟩, ⟨0, 0⟩] = some ⟨50, 300⟩ := by
  norm_num [aggregatePods, nonzeroStat, pyMin, pySum]
example : containsSeg (lowerStr "Cluster") (lowerStr "AKS Cluster: aks-nexus") = true := by
  decide
example : get_metric_stats (some [⟨"m:min", [⟨[none, none]⟩]⟩]) = ⟨0, 0⟩ := by decide
example : get_jvm_heap_metrics ["g"] (fun _ => ⟨1, 2⟩) (fun _ => ⟨0, 0⟩) = ⟨1, 2⟩ := by
  decide
example :
    create_deployment_dashboard ["a"] false =
      some [⟨"a - CPU", "a - CPU Usage", 0, 0, 304, 304⟩,
            ⟨"a - Memory", "a - Memory Usage", 0, 304, 304, 304⟩] := by
  decide
theorem foldl_min_le_init (xs : List ℚ) (a : ℚ) : xs.foldl Min.min a ≤ a := by
  induction xs generalizing a with
  | nil => simp
  | cons x t ih =>
    simp only [List.foldl_cons]
    exact (ih (min a x)).trans (min_le_left a x)

theorem foldl_min_le_mem (xs : List ℚ) (a : ℚ) : ∀ y ∈ xs, xs.foldl Min.min a ≤ y := by
  induction xs generalizing a with
  | nil => intro y hy; cases hy
  | cons x t ih =>
    intro y hy
    simp only [List.foldl_cons]
    rcases List.mem_cons.mp hy with rfl | h
    · exact (foldl_min_le_init t (min a y)).trans (min_le_right a y)
    · exact ih (min a x) y h

theorem foldl_min_mem_or (xs : List ℚ) (a : ℚ) :
    xs.foldl Min.min a = a ∨ xs.foldl Min.min a ∈ xs := by
  induction xs generalizing a with
  | nil => left; rfl
  | cons x t ih =>
    simp only [List.foldl_cons]
    rcases ih (min a x) with h | h
    · rcases min_choice a x with hm | hm
      · left; rw [h, hm]
      · right; rw [h, hm]; exact List.mem_cons_self x t
    · right; exact List.mem_cons_of_mem x h

theorem foldl_max_init_le (xs : List ℚ) (a : ℚ) : a ≤ xs.foldl Max.max a := by
  induction xs generalizing a with
  | nil => simp
  | cons x t ih =>
    simp only [List.foldl_cons]
    exact (le_max_left a x).trans (ih (max a x))

theorem foldl_max_mem_le (xs : List ℚ) (a : ℚ) : ∀ y ∈ xs, y ≤ xs.foldl Max.max a := by
  induction xs generalizing a with
  | nil => intro y hy; cases hy
  | cons x t ih =>
    intro y hy
    simp only [List.foldl_cons]
    rcases List.mem_cons.mp hy with rfl | h
    · exact (le_max_right a y).trans (foldl_max_init_le t (max a y))
    · exact ih (max a x) y h

theorem foldl_max_mem_or (xs : List ℚ) (a : ℚ) :
    xs.foldl Max.max a = a ∨ xs.foldl Max.max a ∈ xs := by
  induction xs generalizing a with
  | nil => left; rfl
  | cons x t ih =>
    simp only [List.foldl_cons]
    rcases ih (max a x) with h | h
    · rcases max_choice a x with hm | hm
      · left; rw [h, hm]
      · right; rw [h, hm]; exact List.mem_cons_self x t
    · right; exact List.mem_cons_of_mem x h

theorem pyMinD_mem (xs : List ℚ) (h : xs ≠ []) : pyMinD xs ∈ xs := by
  match xs with
  | x :: t =>
    simp only [pyMinD]
    rcases foldl_min_mem_or t x with h1 | h1
    · rw [h1]; exact List.mem_cons_self x t
    · exact List.mem_cons_of_mem x h1

theorem pyMinD_le_mem (xs : List ℚ) : ∀ y ∈ xs, pyMinD xs ≤ y := by
  match xs with
  | [] => intro y hy; cases hy
  | x :: t =>
    intro y hy
    simp only [pyMinD]
    rcases List.mem_cons.mp hy with rfl | h
    · exact foldl_min_le_init t y
    · exact foldl_min_le_mem t x y h

theorem pyMaxD_mem (xs : List ℚ) (h : xs ≠ []) : pyMaxD xs ∈ xs := by
  match xs with
  | x :: t =>
    simp only [pyMaxD]
    rcases foldl_max_mem_or t x with h1 | h1
    · rw [h1]; exact List.mem_cons_self x t
    · exact List.mem_cons_of_mem x h1

theorem pyMaxD_mem_le (xs : List ℚ) : ∀ y ∈ xs, y ≤ pyMaxD xs := by
  match xs with
  | [] => intro y hy; cases hy
  | x :: t =>
    intro y hy
    simp only [pyMaxD]
    rcases List.mem_cons.mp hy with rfl | h
    · exact foldl_max_init_le t y
    · exact foldl_max_mem_le t x y h

theorem pyMin_of_ne_nil (xs : List ℚ) (h : xs ≠ []) : pyMin xs = some (pyMinD xs) := by
  match xs with
  | x :: t => rfl

theorem aggregatePods_of_no_nonzero (stats : List MetricStat)
    (h : ∀ m ∈ stats, nonzeroStat m = false) : aggregatePods stats = some ⟨0, 0⟩ := by
  have hf : stats.filter nonzeroStat = [] := by
    rw [List.filter_eq_nil_iff]
    intro m hm
    simp [h m hm]
  unfold aggregatePods
  rw [hf]
theorem get_workload_metrics_cons (p : String) (ps : List String)
    (cpuF memF : String → Option MetricStat) (ih : Bool) (h : MetricStat) :
    get_workload_metrics (p :: ps) cpuF memF ih h =
      match aggregatePods ((p :: ps).map fun q => effectiveStat (cpuF q)),
            aggregatePods ((p :: ps).map fun q => effectiveStat (memF q)) with
      | some c, some m =>
          some (c, m, if ih then some h else none, (p :: ps).length)
      | _, _ => none := rfl

theorem aggregatePods_eq_of_filter_cons (stats : List MetricStat) (a : MetricStat)
    (rest : List MetricStat) (hA : stats.filter nonzeroStat = a :: rest) :
    aggregatePods stats =
      match pyMin (((a :: rest).filter fun m => decide (0 < m.min)).map MetricStat.min) with
      | none => none
      | some mn => some ⟨mn, pySum ((a :: rest).map MetricStat.max)⟩ := by
  unfold aggregatePods
  rw [hA]

/-- Claim C1 (corrected), counterexample: on the single pod stat with min
0 and max 100 the pod aggregation of get_workload_metrics does not
produce any aggregate at all, because the Python min call receives an
empty sequence and raises ValueError; in particular the aggregate does
not have the max 100 demanded by the claim. -/
theorem C1_counterexample :
    aggregatePods [⟨0, 100⟩] = none ∧ ¬∃ r, aggregatePods [⟨0, 100⟩] = some r := by
  have h : aggregatePods [⟨0, 100⟩] = none := by decide
  refine ⟨h, ?_⟩
  rintro ⟨r, hr⟩
  rw [h] at hr
  cases hr

/-- Claim C1 (amended): for every non-empty list of per-pod stats, if all
pods report no strictly positive stat the aggregate is the zero stat, and
if at least one pod has a strictly positive min then the aggregate exists,
its max is the sum of the per-pod max values over the pods that reported a
non-zero stat, and its min is the least of the strictly positive per-pod
min values.  The extra positive-min premise is forced by the
counterexample, where the code raises ValueError instead. -/
theorem C1_aggregation_invariant (stats : List MetricStat) (_hne : stats ≠ []) :
    ((∀ m ∈ stats, m.min ≤ 0 ∧ m.max ≤ 0) → aggregatePods stats = some ⟨0, 0⟩) ∧
    ((∃ m ∈ stats, 0 < m.min) →
      ∃ r, aggregatePods stats = some r ∧
        r.max = pySum ((stats.filter nonzeroStat).map MetricStat.max) ∧
        (∃ m ∈ stats, 0 < m.min ∧ r.min = m.min) ∧
        (∀ m ∈ stats, 0 < m.min → r.min ≤ m.min)) := by
  constructor
  · intro h
    apply aggregatePods_of_no_nonzero
    intro m hm
    simp only [nonzeroStat, Bool.or_eq_false_iff, decide_eq_false_iff_not, not_lt]
    exact ⟨(h m hm).1, (h m hm).2⟩
  · rintro ⟨m0, hm0, hpos⟩
    have hm0nz : nonzeroStat m0 = true := by
      simp only [nonzeroStat, Bool.or_eq_true, decide_eq_true_eq]
      exact Or.inl hpos
    have hm0A : m0 ∈ stats.filter nonzeroStat := List.mem_filter.mpr ⟨hm0, hm0nz⟩
    cases hA : stats.filter nonzeroStat with
    | nil =>
      rw [hA] at hm0A
      cases hm0A
    | cons a rest =>
      rw [hA] at hm0A
      have hm0P : m0 ∈ (a :: rest).filter fun m => decide (0 < m.min) :=
        List.mem_filter.mpr ⟨hm0A, by simpa using hpos⟩
      have hPne :
          (((a :: rest).filter fun m => decide (0 < m.min)).map MetricStat.min) ≠ [] :=
        List.ne_nil_of_mem (List.mem_map_of_mem MetricStat.min hm0P)
      refine ⟨⟨pyMinD (((a :: rest).filter fun m => decide (0 < m.min)).map MetricStat.min),
        pySum ((a :: rest).map MetricStat.max)⟩, ?_, rfl, ?_, ?_⟩
      · rw [aggregatePods_eq_of_filter_cons stats a rest hA, pyMin_of_ne_nil _ hPne]
      · have hmem := pyMinD_mem _ hPne
        obtain ⟨m1, hm1P, hm1eq⟩ := List.mem_map.mp hmem
        have hm1A : m1 ∈ (a :: rest) := List.mem_of_mem_filter hm1P
        have hm1pos : 0 < m1.min := by
          have := (List.mem_filter.mp hm1P).2
          simpa using this
        refine ⟨m1, ?_, hm1pos, hm1eq.symm⟩
        have : m1 ∈ stats.filter nonzeroStat := hA ▸ hm1A
        exact List.mem_of_mem_filter this
      · intro m hm hmpos
        have hmnz : nonzeroStat m = true := by
          simp only [nonzeroStat, Bool.or_eq_true, decide_eq_true_eq]
          exact Or.inl hmpos
        have hmA : m ∈ (a :: rest) := by
          have : m ∈ stats.filter nonzeroStat := List.mem_filter.mpr ⟨hm, hmnz⟩
          rwa [hA] at this
        have hmP : m ∈ (a :: rest).filter fun m => decide (0 < m.min) :=
          List.mem_filter.mpr ⟨hmA, by simpa using hmpos⟩
        exact pyMinD_le_mem _ m.min (List.mem_map_of_mem MetricStat.min hmP)

/-- Claim C1, witness: on the two pod stats with min 1, max 2 and min 0,
max 3 the amended invariant applies and the aggregation succeeds. -/
theorem C1_aggregation_invariant_witness :
    (aggregatePods [⟨1, 2⟩, ⟨0, 3⟩]).isSome = true := by
  obtain ⟨r, hr, -, -, -⟩ :=
    (C1_aggregation_invariant [⟨1, 2⟩, ⟨0, 3⟩] (by decide)).2 ⟨⟨1, 2⟩, by decide, by decide⟩
  rw [hr]
  rfl

/-- Claim C2 (code bug): evaluation of get_workload_metrics at the failing
input, a deployment with one pod whose CPU metric query succeeds with min
0 and max 100 while the memory query reports all zero.  No HTTP failure is
involved, yet the call produces no well-formed result: the CPU aggregation
raises ValueError out of the Python min call, modelled by none. -/
theorem C2_crash_on_zero_min_pod :
    get_workload_metrics ["p1"] (fun _ => some ⟨0, 100⟩) (fun _ => some ⟨0, 0⟩)
      false ⟨0, 0⟩ = none := by decide

/-- Claim C3: for 3 pods whose per-pod CPU stats are min 0 max 100, min 50
max 200 and min 0 max 0, the CPU aggregate of get_workload_metrics has min
50 and max 300. -/
theorem C3_three_pod_cpu_aggregate :
    get_workload_metrics ["p1", "p2", "p3"]
      (fun p => if p = "p1" then some ⟨0, 100⟩
        else if p = "p2" then some ⟨50, 200⟩ else some ⟨0, 0⟩)
      (fun _ => some ⟨0, 0⟩) false ⟨0, 0⟩ = some (⟨50, 300⟩, ⟨0, 0⟩, none, 3) := by
  have hmap :
      (["p1", "p2", "p3"].map fun q =>
        effectiveStat ((fun p => if p = "p1" then some (⟨0, 100⟩ : MetricStat)
          else if p = "p2" then some ⟨50, 200⟩ else some ⟨0, 0⟩) q)) =
        [⟨0, 100⟩, ⟨50, 200⟩, ⟨0, 0⟩] := by decide
  have hcpu :
      aggregatePods (["p1", "p2", "p3"].map fun q =>
        effectiveStat ((fun p => if p = "p1" then some (⟨0, 100⟩ : MetricStat)
          else if p = "p2" then some ⟨50, 200⟩ else some ⟨0, 0⟩) q)) = some ⟨50, 300⟩ := by
    rw [hmap]
    norm_num [aggregatePods, nonzeroStat, pyMin, pySum]
  have hmem :
      aggregatePods (["p1", "p2", "p3"].map fun _ =>
        effectiveStat (some (⟨0, 0⟩ : MetricStat))) = some ⟨0, 0⟩ := by decide
  rw [get_workload_metrics_cons, hcpu, hmem]
  rfl
/-- Claim C6: a deployment resolving to zero pods short-circuits
get_workload_metrics to all-zero CPU and memory, absent heap metrics and
pod count 0; and for every non-empty pod set in which every pod reports
the zero stat, the aggregated CPU and memory are the zero stat and the
pod count equals the size of the pod set. -/
theorem C6_zero_pods_and_all_zero_pods :
    (∀ (cpuF memF : String → Option MetricStat) (ih : Bool) (h : MetricStat),
      get_workload_metrics [] cpuF memF ih h = some (⟨0, 0⟩, ⟨0, 0⟩, none, 0)) ∧
    (∀ (pods : List String) (cpuF memF : String → Option MetricStat) (ih : Bool)
        (h : MetricStat), pods ≠ [] →
      (∀ p ∈ pods, effectiveStat (cpuF p) = ⟨0, 0⟩ ∧ effectiveStat (memF p) = ⟨0, 0⟩) →
      get_workload_metrics pods cpuF memF ih h =
        some (⟨0, 0⟩, ⟨0, 0⟩, if ih then some h else none, pods.length)) := by
  constructor
  · intro cpuF memF ih h
    rfl
  · intro pods cpuF memF ih h hne hz
    match pods with
    | p :: ps =>
      have hcpu : aggregatePods ((p :: ps).map fun q => effectiveStat (cpuF q)) =
          some ⟨0, 0⟩ := by
        apply aggregatePods_of_no_nonzero
        intro m hm
        obtain ⟨q, hq, rfl⟩ := List.mem_map.mp hm
        rw [(hz q hq).1]
        decide
      have hmem : aggregatePods ((p :: ps).map fun q => effectiveStat (memF q)) =
          some ⟨0, 0⟩ := by
        apply aggregatePods_of_no_nonzero
        intro m hm
        obtain ⟨q, hq, rfl⟩ := List.mem_map.mp hm
        rw [(hz q hq).2]
        decide
      rw [get_workload_metrics_cons, hcpu, hmem]

/-- Claim C6, witness: a single pod reporting the zero stat for CPU and
memory yields the zero aggregates and pod count 1. -/
theorem C6_zero_pods_and_all_zero_pods_witness :
    get_workload_metrics ["p1"] (fun _ => some ⟨0, 0⟩) (fun _ => some ⟨0, 0⟩)
      false ⟨0, 0⟩ = some (⟨0, 0⟩, ⟨0, 0⟩, none, 1) :=
  C6_zero_pods_and_all_zero_pods.2 ["p1"] (fun _ => some ⟨0, 0⟩) (fun _ => some ⟨0, 0⟩)
    false ⟨0, 0⟩ (by decide) (by intro p hp; exact ⟨rfl, rfl⟩)

theorem metricStatsStep_nil (acc : ℚ × ℚ) (item : ResultItem)
    (hd : item.data = []) : metricStatsStep acc item = acc := by
  unfold metricStatsStep
  rw [hd]

theorem metricStatsStep_cons (acc : ℚ × ℚ) (item : ResultItem) (d0 : SeriesEntry)
    (drest : List SeriesEntry) (hd : item.data = d0 :: drest) :
    metricStatsStep acc item =
      if d0.values.isEmpty then acc
      else if strContains item.metricId ":min" then
        (pyMinD (d0.values.filterMap id), acc.2)
      else if strContains item.metricId ":max" then
        (acc.1, pyMaxD (d0.values.filterMap id))
      else acc := by
  unfold metricStatsStep
  rw [hd]

/-- Claim C7: when the metric query response has no result key the stats
are zero; when every data point of every result item is null the stats
are zero, because null data points are filtered out before the reduction
and the empty remainder defaults to 0.0; and when no result item carries
a min or max series id both stats stay at their zero defaults. -/
theorem C7_none_data_points_yield_zero (items : List ResultItem) :
    get_metric_stats none = ⟨0, 0⟩ ∧
    ((∀ it ∈ items, ∀ s ∈ it.data, ∀ v ∈ s.values, v = none) →
      get_metric_stats (some items) = ⟨0, 0⟩) ∧
    ((∀ it ∈ items, strContains it.metricId ":min" = false ∧
        strContains it.metricId ":max" = false) →
      get_metric_stats (some items) = ⟨0, 0⟩) := by
  have hstep : ∀ (items : List ResultItem),
      (∀ it ∈ items, metricStatsStep (0, 0) it = (0, 0)) →
      items.foldl metricStatsStep (0, 0) = (0, 0) := by
    intro items hit
    induction items with
    | nil => rfl
    | cons it rest ih =>
      simp only [List.foldl_cons]
      rw [hit it (List.mem_cons_self it rest)]
      exact ih fun x hx => hit x (List.mem_cons_of_mem it hx)
  have hout : ∀ (items : List ResultItem),
      items.foldl metricStatsStep (0, 0) = (0, 0) →
      get_metric_stats (some items) = ⟨0, 0⟩ := by
    intro items h
    have heq : get_metric_stats (some items) =
        ⟨(items.foldl metricStatsStep (0, 0)).1, (items.foldl metricStatsStep (0, 0)).2⟩ :=
      rfl
    rw [heq, h]
  refine ⟨rfl, ?_, ?_⟩
  · intro hall
    apply hout
    apply hstep
    intro it hit
    cases hd : it.data with
    | nil => exact metricStatsStep_nil (0, 0) it hd
    | cons d0 drest =>
      have hd0 : d0 ∈ it.data := hd ▸ List.mem_cons_self d0 drest
      have hnull : d0.values.filterMap id = [] := by
        rw [List.filterMap_eq_nil_iff]
        intro v hv
        exact hall it hit d0 hd0 v hv
      rw [metricStatsStep_cons (0, 0) it d0 drest hd]
      cases hv : d0.values.isEmpty with
      | true => rfl
      | false =>
        rw [if_neg Bool.false_ne_true, hnull]
        by_cases h1 : strContains it.metricId ":min" = true
        · rw [if_pos h1]
          rfl
        · rw [if_neg h1]
          by_cases h2 : strContains it.metricId ":max" = true
          · rw [if_pos h2]
            rfl
          · rw [if_neg h2]
  · intro hall
    apply hout
    apply hstep
    intro it hit
    cases hd : it.data with
    | nil => exact metricStatsStep_nil (0, 0) it hd
    | cons d0 drest =>
      rw [metricStatsStep_cons (0, 0) it d0 drest hd]
      cases hv : d0.values.isEmpty with
      | true => rfl
      | false =>
        rw [if_neg Bool.false_ne_true]
        rw [if_neg (by rw [(hall it hit).1]; exact Bool.false_ne_true)]
        rw [if_neg (by rw [(hall it hit).2]; exact Bool.false_ne_true)]

/-- Claim C7, witness: a response holding one min series item whose data
points are all null produces the zero stats. -/
theorem C7_none_data_points_yield_zero_witness :
    get_metric_stats (some [⟨"metric:min", [⟨[none, none]⟩]⟩]) = ⟨0, 0⟩ :=
  (C7_none_data_points_yield_zero [⟨"metric:min", [⟨[none, none]⟩]⟩]).2.1 (by decide)
theorem namespaceMatch_eq_false_of_no_tag (ns : String) (e : Entity)
    (h : hasNamespaceTag e = false) : namespaceMatch ns e = false := by
  simp only [hasNamespaceTag, Bool.or_eq_false_iff, List.any_eq_false] at h
  simp only [namespaceMatch, nsTagMatch, nsPropMatch, Bool.or_eq_false_iff,
    List.any_eq_false]
  refine ⟨fun t ht hc => h.1 t ht ?_, fun p hp hc => h.2 p hp ?_⟩
  · simp only [Bool.and_eq_true] at hc
    exact hc.1
  · simp only [Bool.and_eq_true] at hc
    exact hc.1

/-- Claim C4: when no fetched entity carries a namespace indicating tag or
property, get_deployments returns exactly the cluster matched subset of
the fetched entities. -/
theorem C4_fallback_to_cluster_subset (cluster ns : String) (entities : List Entity)
    (h : ∀ e ∈ entities, hasNamespaceTag e = false) :
    get_deployments cluster ns entities =
      entities.filter fun e => clusterMatch cluster e := by
  have hAny : entities.any hasNamespaceTag = false := by
    rw [List.any_eq_false]
    intro e he
    simp [h e he]
  have hmatched :
      (entities.filter fun e => clusterMatch cluster e && namespaceMatch ns e) = [] := by
    rw [List.filter_eq_nil_iff]
    intro e he hc
    simp only [Bool.and_eq_true] at hc
    have h2 := hc.2
    rw [namespaceMatch_eq_false_of_no_tag ns e (h e he)] at h2
    cases h2
  by_cases hfc : (entities.filter fun e => clusterMatch cluster e) = []
  · simp [get_deployments, hAny, hfc, hmatched]
  · have hc : (entities.filter fun e => clusterMatch cluster e).isEmpty = false := by
      rw [List.isEmpty_eq_false]
      exact hfc
    simp [get_deployments, hAny, hc]

/-- Claim C4, witness: a single entity tagged only with a cluster tag that
contains the cluster name is returned by the fallback path. -/
theorem C4_fallback_to_cluster_subset_witness :
    get_deployments "mycluster" "prod" [⟨"id1", "app", [⟨"k8s.cluster", "mycluster"⟩], []⟩] =
      List.filter (fun e => clusterMatch "mycluster" e)
        [⟨"id1", "app", [⟨"k8s.cluster", "mycluster"⟩], []⟩] :=
  C4_fallback_to_cluster_subset "mycluster" "prod"
    [⟨"id1", "app", [⟨"k8s.cluster", "mycluster"⟩], []⟩] (by decide)

/-- Claim C5: when at least one fetched entity carries a namespace
indicating tag or property, an entity is selected by get_deployments if
and only if it is among the fetched entities, the cluster name appears
case-insensitively inside some tag value whose key contains the word
cluster, and the namespace appears case-insensitively inside a namespace
keyed tag value or a namespace named property value of the entity. -/
theorem C5_selection_iff (cluster ns : String) (entities : List Entity)
    (h : ∃ e ∈ entities, hasNamespaceTag e = true) (e : Entity) :
    e ∈ get_deployments cluster ns entities ↔
      e ∈ entities ∧
      (∃ t ∈ e.tags, containsSeg "cluster".toList (lowerStr t.key) = true ∧
        containsSeg (lowerStr cluster) (lowerStr t.value) = true) ∧
      ((∃ t ∈ e.tags, containsSeg "namespace".toList (lowerStr t.key) = true ∧
          containsSeg (lowerStr ns) (lowerStr t.value) = true) ∨
       (∃ p ∈ e.props, containsSeg "namespace".toList (lowerStr p.1) = true ∧
          containsSeg (lowerStr ns) (lowerStr p.2) = true)) := by
  have hAny : entities.any hasNamespaceTag = true := by
    rw [List.any_eq_true]
    exact h
  have hsel : get_deployments cluster ns entities =
      entities.filter fun e => clusterMatch cluster e && namespaceMatch ns e := by
    simp [get_deployments, hAny]
  rw [hsel, List.mem_filter]
  simp only [clusterMatch, namespaceMatch, nsTagMatch, nsPropMatch, Bool.and_eq_true,
    Bool.or_eq_true, List.any_eq_true, and_assoc]

/-- Claim C5, witness: an entity with a matching cluster tag and a
matching namespace tag is selected. -/
theorem C5_selection_iff_witness :
    (⟨"id1", "app", [⟨"cluster", "c1"⟩, ⟨"namespace", "ns1"⟩], []⟩ : Entity) ∈
      get_deployments "c1" "ns1"
        [⟨"id1", "app", [⟨"cluster", "c1"⟩, ⟨"namespace", "ns1"⟩], []⟩] :=
  (C5_selection_iff "c1" "ns1"
    [⟨"id1", "app", [⟨"cluster", "c1"⟩, ⟨"namespace", "ns1"⟩], []⟩]
    ⟨⟨"id1", "app", [⟨"cluster", "c1"⟩, ⟨"namespace", "ns1"⟩], []⟩, by decide, by decide⟩
    ⟨"id1", "app", [⟨"cluster", "c1"⟩, ⟨"namespace", "ns1"⟩], []⟩).mpr (by decide)
theorem get_jvm_heap_metrics_cons (g : String) (gs : List String)
    (fp fa : String → MetricStat) :
    get_jvm_heap_metrics (g :: gs) fp fa =
      match ((g :: gs).map fp).filter nonzeroStat with
      | [] =>
        match ((g :: gs).map fa).filter nonzeroStat with
        | [] => ⟨0, 0⟩
        | c :: cs =>
          ⟨pyMinD ((c :: cs).map MetricStat.min), pyMaxD ((c :: cs).map MetricStat.max)⟩
      | c :: cs =>
        ⟨pyMinD ((c :: cs).map MetricStat.min), pyMaxD ((c :: cs).map MetricStat.max)⟩ :=
  rfl

/-- Claim C8: when the heap aggregation of _get_jvm_heap_metrics runs over
a non-empty set of resolved process group entities, and the primary heap
metric key yields a signal for some entity, the result is the least of the
per-entity mins and the greatest of the per-entity maxes over the entities
that reported a non-zero stat, not a sum; when the primary key yields no
signal for any entity the alternate key is aggregated the same way, and
only when that also yields nothing does the result default to the zero
stat. -/
theorem C8_heap_min_max_aggregation (pgs : List String) (fp fa : String → MetricStat)
    (hne : pgs ≠ []) :
    ((pgs.map fp).filter nonzeroStat ≠ [] →
      ((get_jvm_heap_metrics pgs fp fa).min ∈
          ((pgs.map fp).filter nonzeroStat).map MetricStat.min ∧
        ∀ x ∈ ((pgs.map fp).filter nonzeroStat).map MetricStat.min,
          (get_jvm_heap_metrics pgs fp fa).min ≤ x) ∧
      ((get_jvm_heap_metrics pgs fp fa).max ∈
          ((pgs.map fp).filter nonzeroStat).map MetricStat.max ∧
        ∀ x ∈ ((pgs.map fp).filter nonzeroStat).map MetricStat.max,
          x ≤ (get_jvm_heap_metrics pgs fp fa).max)) ∧
    ((pgs.map fp).filter nonzeroStat = [] →
      (pgs.map fa).filter nonzeroStat ≠ [] →
      ((get_jvm_heap_metrics pgs fp fa).min ∈
          ((pgs.map fa).filter nonzeroStat).map MetricStat.min ∧
        ∀ x ∈ ((pgs.map fa).filter nonzeroStat).map MetricStat.min,
          (get_jvm_heap_metrics pgs fp fa).min ≤ x) ∧
      ((get_jvm_heap_metrics pgs fp fa).max ∈
          ((pgs.map fa).filter nonzeroStat).map MetricStat.max ∧
        ∀ x ∈ ((pgs.map fa).filter nonzeroStat).map MetricStat.max,
          x ≤ (get_jvm_heap_metrics pgs fp fa).max)) ∧
    ((pgs.map fp).filter nonzeroStat = [] →
      (pgs.map fa).filter nonzeroStat = [] →
      get_jvm_heap_metrics pgs fp fa = ⟨0, 0⟩) := by
  match pgs with
  | g :: gs =>
    refine ⟨?_, ?_, ?_⟩
    · intro hsig
      cases hp : ((g :: gs).map fp).filter nonzeroStat with
      | nil => exact absurd hp hsig
      | cons c cs =>
        have hval : get_jvm_heap_metrics (g :: gs) fp fa =
            ⟨pyMinD ((c :: cs).map MetricStat.min),
              pyMaxD ((c :: cs).map MetricStat.max)⟩ := by
          rw [get_jvm_heap_metrics_cons, hp]
        rw [hval]
        exact ⟨⟨pyMinD_mem _ (by simp), fun x hx => pyMinD_le_mem _ x hx⟩,
          ⟨pyMaxD_mem _ (by simp), fun x hx => pyMaxD_mem_le _ x hx⟩⟩
    · intro hp hsig
      cases ha : ((g :: gs).map fa).filter nonzeroStat with
      | nil => exact absurd ha hsig
      | cons c cs =>
        have hval : get_jvm_heap_metrics (g :: gs) fp fa =
            ⟨pyMinD ((c :: cs).map MetricStat.min),
              pyMaxD ((c :: cs).map MetricStat.max)⟩ := by
          rw [get_jvm_heap_metrics_cons, hp, ha]
        rw [hval]
        exact ⟨⟨pyMinD_mem _ (by simp), fun x hx => pyMinD_le_mem _ x hx⟩,
          ⟨pyMaxD_mem _ (by simp), fun x hx => pyMaxD_mem_le _ x hx⟩⟩
    · intro hp ha
      rw [get_jvm_heap_metrics_cons, hp, ha]

/-- Claim C8, witness: one process group whose primary key stat has min 1
and max 2 contributes its own min to the aggregate. -/
theorem C8_heap_min_max_aggregation_witness :
    (get_jvm_heap_metrics ["pg1"] (fun _ => ⟨1, 2⟩) (fun _ => ⟨0, 0⟩)).min ∈
      ((["pg1"].map fun _ => (⟨1, 2⟩ : MetricStat)).filter nonzeroStat).map
        MetricStat.min :=
  (((C8_heap_min_max_aggregation ["pg1"] (fun _ => ⟨1, 2⟩) (fun _ => ⟨0, 0⟩)
    (by decide)).1 (by decide)).1).1
theorem stepPos_div_mod (i : Nat) :
    stepPos (i / 4, i % 4) = ((i + 1) / 4, (i + 1) % 4) := by
  unfold stepPos
  by_cases h : i % 4 + 1 ≥ 4
  · rw [if_pos h]
    have h1 : (i + 1) / 4 = i / 4 + 1 := by omega
    have h2 : (i + 1) % 4 = 0 := by omega
    rw [h1, h2]
  · rw [if_neg h]
    have h1 : (i + 1) / 4 = i / 4 := by omega
    have h2 : (i + 1) % 4 = i % 4 + 1 := by omega
    rw [h1, h2]

theorem tileBounds_mkTile (nm cn : String) (i : Nat) :
    tileBounds (mkTile nm cn (i / 4) (i % 4)) = gridBounds i := rfl

theorem gridSeq_eq_range (n : Nat) : ∀ i : Nat,
    gridSeq i n = (List.range n).map fun k => gridBounds (i + k) := by
  induction n with
  | zero => intro i; rfl
  | succ n ih =>
    intro i
    rw [gridSeq, ih (i + 1), List.range_succ_eq_map, List.map_cons, List.map_map]
    refine congrArg₂ List.cons (congrArg gridBounds (by omega)) ?_
    refine List.map_congr_left fun k _ => ?_
    show gridBounds (i + 1 + k) = gridBounds (i + (k + 1))
    exact congrArg gridBounds (by omega)

theorem buildTilesAux_bounds_false : ∀ (deps : List String) (i : Nat),
    (buildTilesAux false deps (i / 4, i % 4)).map tileBounds =
      gridSeq i (2 * deps.length) := by
  intro deps
  induction deps with
  | nil => intro i; rfl
  | cons d rest ih =>
    intro i
    show (buildTilesAux false (d :: rest) (i / 4, i % 4)).map tileBounds =
      gridSeq i (2 * (rest.length + 1))
    have hsplit : 2 * (rest.length + 1) = 2 * rest.length + 1 + 1 := by omega
    rw [hsplit, gridSeq, gridSeq]
    rw [buildTilesAux]
    rw [stepPos_div_mod i, stepPos_div_mod (i + 1)]
    rw [List.map_cons, List.map_cons, ih (i + 2)]
    rw [tileBounds_mkTile, tileBounds_mkTile]

theorem buildTilesAux_bounds_true : ∀ (deps : List String) (i : Nat),
    (buildTilesAux true deps (i / 4, i % 4)).map tileBounds =
      gridSeq i (3 * deps.length) := by
  intro deps
  induction deps with
  | nil => intro i; rfl
  | cons d rest ih =>
    intro i
    show (buildTilesAux true (d :: rest) (i / 4, i % 4)).map tileBounds =
      gridSeq i (3 * (rest.length + 1))
    have hsplit : 3 * (rest.length + 1) = 3 * rest.length + 1 + 1 + 1 := by omega
    rw [hsplit, gridSeq, gridSeq, gridSeq]
    rw [buildTilesAux]
    rw [stepPos_div_mod i, stepPos_div_mod (i + 1), stepPos_div_mod (i + 2)]
    rw [List.map_cons, List.map_cons, List.map_cons, ih (i + 3)]
    rw [tileBounds_mkTile, tileBounds_mkTile, tileBounds_mkTile]

/-- Claim C9: for N resolved deployments, the tile list of the dashboard
payload built by create_deployment_dashboard has exactly 2 times N tiles
with heap tiles disabled and 3 times N tiles with heap enabled, and the
tile with flat index k is a 304 by 304 tile with left equal to the column
times 304 and top equal to the row times 304, where the column is k mod 4,
wrapping from 3 back to 0, and the row is k div 4. -/
theorem C9_dashboard_tile_layout (deps : List String) (heapOn : Bool)
    (hne : deps ≠ []) :
    ∃ ts, create_deployment_dashboard deps heapOn = some ts ∧
      ts.length = (if heapOn then 3 else 2) * deps.length ∧
      ts.map tileBounds =
        (List.range ((if heapOn then 3 else 2) * deps.length)).map gridBounds := by
  match deps with
  | d :: rest =>
    refine ⟨buildTilesAux heapOn (d :: rest) (0, 0), rfl, ?_, ?_⟩
    · have hb : (buildTilesAux heapOn (d :: rest) (0, 0)).map tileBounds =
          gridSeq 0 ((if heapOn then 3 else 2) * (d :: rest).length) := by
        cases heapOn with
        | false =>
          have := buildTilesAux_bounds_false (d :: rest) 0
          simpa using this
        | true =>
          have := buildTilesAux_bounds_true (d :: rest) 0
          simpa using this
      have hlen := congrArg List.length hb
      rw [List.length_map] at hlen
      rw [hlen, gridSeq_eq_range, List.length_map, List.length_range]
    · have hb : (buildTilesAux heapOn (d :: rest) (0, 0)).map tileBounds =
          gridSeq 0 ((if heapOn then 3 else 2) * (d :: rest).length) := by
        cases heapOn with
        | false =>
          have := buildTilesAux_bounds_false (d :: rest) 0
          simpa using this
        | true =>
          have := buildTilesAux_bounds_true (d :: rest) 0
          simpa using this
      rw [hb, gridSeq_eq_range]
      refine List.map_congr_left fun k _ => ?_
      show gridBounds (0 + k) = gridBounds k
      exact congrArg gridBounds (by omega)

/-- Claim C9, witness: a single deployment with heap tiles disabled yields
a dashboard payload. -/
theorem C9_dashboard_tile_layout_witness :
    (create_deployment_dashboard ["app"] false).isSome = true := by
  obtain ⟨ts, hts, -, -⟩ := C9_dashboard_tile_layout ["app"] false (by decide)
  rw [hts]
  rfl
/-- Claim C10: in the metrics report pipeline, a results entry exists for
a returned deployment exactly when its displayName is absent or equals
engine; every deployment whose displayName is present and differs from
engine is silently skipped, so metrics are fetched and reported only for
deployments named engine or lacking a displayName, and the results list
feeding every output format is built from exactly those deployments. -/
theorem C10_engine_only_filter
    (fetch : String → MetricStat × MetricStat × Option MetricStat × Nat)
    (deps : List Deployment)
    (r : Deployment × (MetricStat × MetricStat × Option MetricStat × Nat)) :
    r ∈ build_results fetch deps ↔
      ∃ d ∈ deps, (d.displayName = none ∨ d.displayName = some "engine") ∧
        r = (d, fetch d.entityId) := by
  induction deps with
  | nil =>
    simp [build_results]
  | cons d rest ih =>
    cases hd : d.displayName with
    | none =>
      have hskip : skipDeployment d = false := by
        unfold skipDeployment
        rw [hd]
      rw [build_results, hskip]
      simp only [Bool.false_eq_true, if_false, List.mem_cons, ih]
      constructor
      · rintro (rfl | ⟨d1, hd1, hc1, rfl⟩)
        · exact ⟨d, Or.inl rfl, Or.inl hd, rfl⟩
        · exact ⟨d1, Or.inr hd1, hc1, rfl⟩
      · rintro ⟨d1, hd1, hc1, rfl⟩
        rcases hd1 with rfl | hd1r
        · exact Or.inl rfl
        · exact Or.inr ⟨d1, hd1r, hc1, rfl⟩
    | some n =>
      by_cases hn : n = "engine"
      · subst hn
        have hskip : skipDeployment d = false := by
          unfold skipDeployment
          rw [hd]
          rfl
        rw [build_results, hskip]
        simp only [Bool.false_eq_true, if_false, List.mem_cons, ih]
        constructor
        · rintro (rfl | ⟨d1, hd1, hc1, rfl⟩)
          · exact ⟨d, Or.inl rfl, Or.inr hd, rfl⟩
          · exact ⟨d1, Or.inr hd1, hc1, rfl⟩
        · rintro ⟨d1, hd1, hc1, rfl⟩
          rcases hd1 with rfl | hd1r
          · exact Or.inl rfl
          · exact Or.inr ⟨d1, hd1r, hc1, rfl⟩
      · have hskip : skipDeployment d = true := by
          unfold skipDeployment
          rw [hd]
          simp [hn]
        rw [build_results, hskip]
        rw [if_pos rfl, ih]
        constructor
        · rintro ⟨d1, hd1, hc1, rfl⟩
          exact ⟨d1, List.mem_cons_of_mem d hd1, hc1, rfl⟩
        · rintro ⟨d1, hd1, hc1, rfl⟩
          rcases List.mem_cons.mp hd1 with heq | hd1r
          · subst heq
            rcases hc1 with hnone | hengine
            · rw [hd] at hnone
              cases hnone
            · rw [hd, Option.some.injEq] at hengine
              exact absurd hengine hn
          · exact ⟨d1, hd1r, hc1, rfl⟩
